import Mathlib

/-!
Verification development for the `gowebp` repository (`src/main.go`).

The program crawls a directory for JPEG/PNG files and converts each to a
WebP image through a worker pool.  The embedding below models:

* the Unix semantics of the `path/filepath` functions that the pipeline
  uses (`Ext`, `Base`, `Dir`, `Join`, `Clean`), character by character
  after Go's own source;
* the per-job conversion pipeline `pool.execute` as a pure state-passing
  function over an abstract filesystem (`FS`, mapping a path to the size
  of the file stored there) and an environment of oracles (`Env`) for the
  outcome of `filepath.Abs`, the external `cwebp` encoder and
  `os.Remove`;
* the worker pool's shutdown protocol (`pool.stop`, `pool.worker`) as a
  small-step transition system.

Go's `float64` compression arithmetic is modelled over `Rat`; file sizes
(`int64` / `datasize.ByteSize`) are modelled by `Nat` since they are
non-negative byte counts.  A `panic` (the program's `mustGetFileSize`
panics when `os.Stat` fails) is modelled by the `panicked` flag of the
pipeline's outcome: Go runs the deferred result delivery during the
unwind and then crashes the whole process.
-/

namespace Gowebp

/-! ## Go `path/filepath` (Unix rules), translated from Go's standard library -/

namespace GoFilepath

/-- Core of Go's `filepath.Ext`: scan the path backwards (the argument is
the reversed character list); stop at a path separator; on the first `.`
found, return it together with the characters already passed (`acc`). -/
def extRevAux : List Char → List Char → List Char
  | [], _ => []
  | c :: rest, acc =>
    if c = '/' then []
    else if c = '.' then c :: acc
    else extRevAux rest (c :: acc)

/-- Go `filepath.Ext`: the suffix beginning at the final dot in the final
slash-separated element of the path; empty when there is no dot. -/
def ext (s : String) : String := String.mk (extRevAux s.data.reverse [])

/-- Go `filepath.Base` (Unix): strip trailing separators, then keep the
part after the last separator; `"."` for the empty path, `"/"` when the
path consists only of separators. -/
def base (s : String) : String :=
  if s.data = [] then "."
  else
    let r := s.data.reverse.dropWhile (fun c => c = '/')
    let b := r.takeWhile (fun c => ¬ c = '/')
    if b = [] then "/" else String.mk b.reverse

/-- Backtracking loop of Go's `filepath.Clean` for a `..` element: having
just dropped the character `d` from the output (kept reversed), keep
dropping while the output is longer than `dotdot` and the character just
dropped is not a separator. -/
def bloop (dotdot : Nat) : Char → List Char → List Char
  | _, [] => []
  | d, c :: rest =>
    if dotdot < (c :: rest).length ∧ ¬ d = '/' then bloop dotdot c rest
    else c :: rest

/-- Main loop of Go's `filepath.Clean` (Unix).  `out` is the output built
so far, in reverse; `dotdot` is the length of the output prefix that a
`..` element may not erase.  The `fuel` argument only bounds the
recursion; one unit is spent per input character, so `fuel ≥` length of
the remaining input never runs out. -/
def cleanLoop (rooted : Bool) : Nat → List Char → List Char → Nat → List Char
  | 0, _, out, _ => out
  | _ + 1, [], out, _ => out
  | fuel + 1, c :: rest, out, dotdot =>
    if c = '/' then
      cleanLoop rooted fuel rest out dotdot
    else if c = '.' ∧ (rest = [] ∨ rest.head? = some '/') then
      cleanLoop rooted fuel rest out dotdot
    else if c = '.' ∧ rest.head? = some '.' ∧
        (rest.tail = [] ∨ rest.tail.head? = some '/') then
      if dotdot < out.length then
        match out with
        | [] => cleanLoop rooted fuel rest.tail [] dotdot
        | d :: outRest => cleanLoop rooted fuel rest.tail (bloop dotdot d outRest) dotdot
      else if rooted = false then
        let out1 := if 0 < out.length then '/' :: out else out
        let out2 := '.' :: '.' :: out1
        cleanLoop rooted fuel rest.tail out2 out2.length
      else
        cleanLoop rooted fuel rest.tail out dotdot
    else
      let out1 :=
        if (rooted = true ∧ out.length ≠ 1) ∨ (rooted = false ∧ out.length ≠ 0) then
          '/' :: out
        else out
      let elem := rest.takeWhile (fun x => ¬ x = '/')
      cleanLoop rooted fuel (rest.dropWhile (fun x => ¬ x = '/')) (elem.reverse ++ c :: out1) dotdot

/-- Go `filepath.Clean` (Unix): shortest lexically equivalent path —
collapse repeated separators, eliminate `.` elements, resolve `..`
elements, return `"."` for an empty result. -/
def clean (s : String) : String :=
  match s.data with
  | [] => "."
  | c :: _ =>
    let rooted : Bool := c == '/'
    let out := cleanLoop rooted s.data.length s.data
      (if rooted then ['/'] else []) (if rooted then 1 else 0)
    if out = [] then "." else String.mk out.reverse

/-- Go `filepath.Dir`: everything up to and including the final
separator, then cleaned; `"."` when there is no separator. -/
def dir (s : String) : String :=
  clean (String.mk ((s.data.reverse.dropWhile (fun c => ¬ c = '/')).reverse))

/-- Go `filepath.Join` on two elements: skip leading empty elements,
join the rest with a separator and clean the result. -/
def join2 (a b : String) : String :=
  if a.data = [] then
    if b.data = [] then "" else clean b
  else clean (String.mk (a.data ++ '/' :: b.data))

end GoFilepath

/-! ## The conversion pipeline of `pool.execute` -/

/-- Go `error` values are abstracted by their message. -/
abbrev GoErr := String

/-- The filesystem, abstracted to what the pipeline observes: for each
path, `none` when `os.Stat` fails there (no file), or the size of the
file stored there. -/
abbrev FS := String → Option Nat

/-- Point update of the abstract filesystem. -/
def updateFS (fs : FS) (p : String) (v : Option Nat) : FS :=
  fun q => if q = p then v else fs q

/-- The command-line configuration consumed by the pipeline
(package-level variables in `src/main.go`). -/
structure Config where
  replace : Bool
  dryRun : Bool
  prependToName : String
  appendToName : String
  /-- `minFileSize` in bytes (`datasize.ByteSize` is a `uint64`). -/
  minFileSize : Nat
deriving DecidableEq

/-- The `webpJobResult` struct of `src/main.go`.  The source field
`exists` is called `alreadyExists` here (`exists` is reserved in Lean);
`compression` is the `float64` field, modelled over `Rat`. -/
structure WebpJobResult where
  err : Option GoErr := none
  compression : Rat := 0
  alreadyExists : Bool := false
  outputFile : String := ""
deriving DecidableEq

/-- Events on a job's result channel `resCh`. -/
inductive ChanEvent
  | send (r : WebpJobResult)
  | close
deriving DecidableEq

/-- Outcome of one invocation of the external `cwebp` encoder: a failure,
or success having written an output file of the given size. -/
inductive EncodeOutcome
  | fail (e : GoErr)
  | success (outSize : Nat)

/-- Oracles for the operations of the pipeline whose outcome the
environment decides: `filepath.Abs`, the external encoder, and whether
`os.Remove` fails on a given path. -/
structure Env where
  absPath : String → Except GoErr String
  encode : String → String → Nat → EncodeOutcome
  removeErr : String → Option GoErr

/-- Everything one call of `pool.execute` produces: the result sent on
the job's channel, the filesystem afterwards, whether the encoder was
invoked, whether the call panicked (Go: `mustGetFileSize` on a stat
failure; the process crashes after the deferred send), and the events on
the job's result channel. -/
structure ExecOutcome where
  res : WebpJobResult
  fs : FS
  encoderInvoked : Bool
  panicked : Bool
  events : List ChanEvent

/-- The output-path derivation of `pool.execute` (src/main.go lines
382-388): `targetExt := filepath.Ext(input)`, `base := filepath.Base(input)`,
`path := filepath.Dir(input)`, output `filepath.Join(path,
prependToName + base[:len(base)-len(targetExt)] + appendToName + ".webp")`.
The slicing is on bytes in Go; paths are modelled at character level. -/
def deriveOutputPath (cfg : Config) (inputAbs : String) : String :=
  let targetExt := GoFilepath.ext inputAbs
  let base := GoFilepath.base inputAbs
  let path := GoFilepath.dir inputAbs
  GoFilepath.join2 path
    (cfg.prependToName ++ String.mk (base.data.take (base.data.length - targetExt.data.length))
      ++ cfg.appendToName ++ ".webp")

/-- The conversion pipeline `pool.execute` of `src/main.go` (lines
361-450), as a function of the oracles, the configuration, the
filesystem, and the job's `input` and `quality` fields.  The deferred
`j.resCh <- r; close(j.resCh)` runs on every path out of the function —
also during a panic unwind — so every branch produces the event list
`[send r, close]`. -/
def execute (env : Env) (cfg : Config) (fs : FS) (input : String) (quality : Nat) :
    ExecOutcome :=
  match env.absPath input with
  | Except.error e =>
    -- j.input, r.err = filepath.Abs(j.input); if r.err != nil return
    let r : WebpJobResult := { err := some e }
    { res := r, fs := fs, encoderInvoked := false, panicked := false,
      events := [ChanEvent.send r, ChanEvent.close] }
  | Except.ok inputAbs =>
    let outputFile := deriveOutputPath cfg inputAbs
    let r0 : WebpJobResult := { outputFile := outputFile }
    if cfg.replace = false ∧ (fs outputFile).isSome then
      -- file already exists
      let r := { r0 with alreadyExists := true }
      { res := r, fs := fs, encoderInvoked := false, panicked := false,
        events := [ChanEvent.send r, ChanEvent.close] }
    else
      match fs inputAbs with
      | none =>
        -- mustGetFileSize(j.input): os.Stat failed, panic(err)
        { res := r0, fs := fs, encoderInvoked := false, panicked := true,
          events := [ChanEvent.send r0, ChanEvent.close] }
      | some fSizeTarget =>
        if fSizeTarget < cfg.minFileSize then
          -- smaller than the minimum file size: skip, no error
          { res := r0, fs := fs, encoderInvoked := false, panicked := false,
            events := [ChanEvent.send r0, ChanEvent.close] }
        else if cfg.dryRun = true then
          -- dry run: just print and return
          { res := r0, fs := fs, encoderInvoked := false, panicked := false,
            events := [ChanEvent.send r0, ChanEvent.close] }
        else
          match env.encode inputAbs outputFile quality with
          | EncodeOutcome.fail e =>
            let r := { r0 with err := some e }
            { res := r, fs := fs, encoderInvoked := true, panicked := false,
              events := [ChanEvent.send r, ChanEvent.close] }
          | EncodeOutcome.success fSizeOutput =>
            -- the encoder wrote the output file; mustGetFileSize(r.outputFile)
            -- reads its size back
            let fs1 := updateFS fs outputFile (some fSizeOutput)
            let r1 := { r0 with
              compression := (1 - ((fSizeOutput : Rat) / (fSizeTarget : Rat))) * 100 }
            if fSizeOutput > fSizeTarget then
              -- output bigger than input: delete it
              match env.removeErr outputFile with
              | some e =>
                let r := { r1 with err := some e }
                { res := r, fs := fs1, encoderInvoked := true, panicked := false,
                  events := [ChanEvent.send r, ChanEvent.close] }
              | none =>
                let fs2 := updateFS fs1 outputFile none
                { res := r1, fs := fs2, encoderInvoked := true, panicked := false,
                  events := [ChanEvent.send r1, ChanEvent.close] }
            else
              { res := r1, fs := fs1, encoderInvoked := true, panicked := false,
                events := [ChanEvent.send r1, ChanEvent.close] }

/-- The spec's wording of the name part of the derivation: the base
name without its extension.  `deriveOutputPath` (the code) instead
slices `len(filepath.Ext(input))` bytes off the base name; the two are
compared in the theorem about the derivation. -/
def baseNameWithoutExtension (b : String) : String :=
  String.mk (b.data.take (b.data.length - (GoFilepath.ext b).data.length))

/-- The derivation as the spec words it: `directory / prependToName +
baseNameWithoutExtension + appendToName + ".webp"`. -/
def deriveOutputPathSpec (cfg : Config) (inputAbs : String) : String :=
  GoFilepath.join2 (GoFilepath.dir inputAbs)
    (cfg.prependToName ++ baseNameWithoutExtension (GoFilepath.base inputAbs)
      ++ cfg.appendToName ++ ".webp")

/-! Concrete fixtures used by the witnesses of the theorems below. -/

/-- Oracles where path resolution echoes the (already absolute) input,
the encoder always writes a 60000-byte output, and removal succeeds. -/
def envOk : Env :=
  { absPath := fun s => Except.ok s
    encode := fun _ _ _ => EncodeOutcome.success 60000
    removeErr := fun _ => none }

/-- Oracles like `envOk` but whose encoder writes 20000 bytes. -/
def envSmallOut : Env :=
  { absPath := fun s => Except.ok s
    encode := fun _ _ _ => EncodeOutcome.success 20000
    removeErr := fun _ => none }

/-- The default flag configuration: no replace, no dry run, no
decorations, 10KB minimum (10240 bytes, the parse of `"10KB"`). -/
def cfgDefault : Config :=
  { replace := false, dryRun := false, prependToName := "", appendToName := ""
    minFileSize := 10240 }

/-- The default configuration with the dry-run flag set. -/
def cfgDry : Config :=
  { replace := false, dryRun := true, prependToName := "", appendToName := ""
    minFileSize := 10240 }

/-- A configuration with both name decorations set. -/
def cfgDecor : Config :=
  { replace := false, dryRun := false, prependToName := "small-", appendToName := "-x"
    minFileSize := 0 }

/-- A filesystem holding one 50000-byte image and nothing else. -/
def fsCat : FS := fun q => if q = "/pics/cat.jpg" then some 50000 else none

/-- A filesystem holding the image and an already-derived output. -/
def fsCatBoth : FS :=
  fun q => if q = "/pics/cat.webp" then some 4096
    else if q = "/pics/cat.jpg" then some 50000 else none

/-- A filesystem holding one 512-byte image (below the 10KB minimum). -/
def fsIcon : FS := fun q => if q = "/pics/icon.png" then some 512 else none

/-- The empty filesystem. -/
def fsNone : FS := fun _ => none

/-! ## The worker pool's shutdown protocol

`pool.worker` (src/main.go lines 469-487) loops, selecting between
receiving a job from `p.jobs` (exiting when the channel is closed) and
`p.ctx.Done()` (exiting on cancellation), and decrements the wait group
on exit.  `pool.stop` (lines 464-467) fires the cancellation and blocks
on `p.wg.Wait()`.  `pool.wait` (lines 459-462) closes `p.jobs` and
blocks the same way.  The protocol is modelled as a small-step
transition system over the pool's observable state; `execute` runs
between two worker-loop iterations and is atomic from the protocol's
point of view (it never touches the pool's shared state), so a finished
job is recorded wholesale in `delivered`.  Jobs are identified by the
order of their submission (`newJob` builds a fresh job value, so no job
is submitted twice). -/

/-- The state of one worker goroutine of `pool.worker`. -/
inductive WorkerState
  | waiting
  | executing (j : Nat)
  | exited
deriving DecidableEq

/-- The shared state of the pool, together with the submission and
delivery history needed to state the shutdown claims. -/
structure PoolState where
  workers : List WorkerState
  /-- whether `close(p.jobs)` has happened (`pool.wait`). -/
  jobsClosed : Bool
  /-- whether `p.done()` has fired `p.ctx.Done()` (`pool.stop`). -/
  ctxDone : Bool
  /-- the wait-group counter: `p.wg.Add(1)` per started worker,
  `p.wg.Done()` on worker exit. -/
  wgCount : Nat
  /-- whether `p.wg.Wait()` inside `pool.stop` has returned. -/
  stopReturned : Bool
  /-- jobs handed to a worker (their pipeline started), latest first. -/
  started : List Nat
  /-- jobs whose result was delivered on their channel, latest first. -/
  delivered : List Nat

/-- `newPool`: all workers start in the loop of `pool.worker`, the wait
group counts every worker, nothing submitted yet. -/
def initPool (n : Nat) : PoolState :=
  { workers := List.replicate n WorkerState.waiting
    jobsClosed := false
    ctxDone := false
    wgCount := n
    stopReturned := false
    started := []
    delivered := [] }

/-- One scheduler step of the pool.  Workers are addressed by splitting
the worker list around the worker that moves. -/
inductive PoolStep : PoolState → PoolState → Prop
  /-- a waiting worker receives job `j` from the open `p.jobs` channel
  (the rendezvous with `p.jobs <- newJob(...)` in `main`); `newJob`
  creates a fresh job value, hence `j ∉ started`. -/
  | dispatch (s : PoolState) (j : Nat) (pre post : List WorkerState) :
      s.workers = pre ++ WorkerState.waiting :: post →
      s.jobsClosed = false →
      j ∉ s.started →
      PoolStep s { s with workers := pre ++ WorkerState.executing j :: post
                          started := j :: s.started }
  /-- a worker finishes `p.execute(j)` — delivering the single result on
  the job's channel — and loops back to the select. -/
  | finish (s : PoolState) (j : Nat) (pre post : List WorkerState) :
      s.workers = pre ++ WorkerState.executing j :: post →
      PoolStep s { s with workers := pre ++ WorkerState.waiting :: post
                          delivered := j :: s.delivered }
  /-- a waiting worker observes the closed `p.jobs` channel (`!ok`) and
  returns, running the deferred `p.wg.Done()`. -/
  | exitClosed (s : PoolState) (pre post : List WorkerState) :
      s.workers = pre ++ WorkerState.waiting :: post →
      s.jobsClosed = true →
      PoolStep s { s with workers := pre ++ WorkerState.exited :: post
                          wgCount := s.wgCount - 1 }
  /-- a waiting worker observes `p.ctx.Done()` and returns, running the
  deferred `p.wg.Done()`. -/
  | exitDone (s : PoolState) (pre post : List WorkerState) :
      s.workers = pre ++ WorkerState.waiting :: post →
      s.ctxDone = true →
      PoolStep s { s with workers := pre ++ WorkerState.exited :: post
                          wgCount := s.wgCount - 1 }
  /-- `pool.wait` runs `close(p.jobs)`. -/
  | closeJobs (s : PoolState) :
      PoolStep s { s with jobsClosed := true }
  /-- `pool.stop` runs `p.done()`, firing the cancellation. -/
  | cancel (s : PoolState) :
      PoolStep s { s with ctxDone := true }
  /-- the `p.wg.Wait()` call inside `pool.stop` returns: only once the
  cancellation has been fired and the wait-group counter is zero. -/
  | stopReturn (s : PoolState) :
      s.ctxDone = true →
      s.wgCount = 0 →
      PoolStep s { s with stopReturned := true }

/-- States a pool with `n` workers can reach from `newPool`. -/
inductive Reachable (n : Nat) : PoolState → Prop
  | init : Reachable n (initPool n)
  | step {s t : PoolState} : Reachable n s → PoolStep s t → Reachable n t

/-- Number of workers that have not yet exited (what the wait-group
counter tracks). -/
def liveCount (ws : List WorkerState) : Nat :=
  (ws.filter (fun w => w ≠ WorkerState.exited)).length

/-- The job a worker is currently executing, if any. -/
def jobOf : WorkerState → Option Nat
  | WorkerState.executing j => some j
  | _ => none

/-- The multiset of jobs currently being executed by some worker. -/
def currentJobs (ws : List WorkerState) : Multiset Nat :=
  ((ws.filterMap jobOf : List Nat) : Multiset Nat)

/-- The inductive invariant of the pool protocol: the wait-group counter
counts the workers that have not exited; once `stop` has returned no
worker is live; every started job is either delivered or on exactly one
worker; and no job is started twice. -/
structure PoolInv (s : PoolState) : Prop where
  wg : s.wgCount = liveCount s.workers
  stopAll : s.stopReturned = true → liveCount s.workers = 0
  acct : (s.started : Multiset Nat) = (s.delivered : Multiset Nat) + currentJobs s.workers
  nodup : s.started.Nodup

/-- A concrete completed shutdown, used by a witness: one worker
received job 0, delivered its result, the pool was cancelled, the
worker exited and `stop` returned. -/
def poolDone : PoolState :=
  { workers := [WorkerState.exited]
    jobsClosed := false
    ctxDone := true
    wgCount := 0
    stopReturned := true
    started := [0]
    delivered := [0] }

/-! ## Theorems about the pipeline -/

/-- Shared shape lemma: on every path through `pool.execute` the
channel event trace is exactly `[send result, close]`. -/
theorem execute_events_eq (env : Env) (cfg : Config) (fs : FS) (input : String)
    (quality : Nat) :
    (execute env cfg fs input quality).events =
      [ChanEvent.send (execute env cfg fs input quality).res, ChanEvent.close] := by
  unfold execute
  cases env.absPath input with
  | error e => rfl
  | ok p =>
    by_cases hEx : cfg.replace = false ∧ (fs (deriveOutputPath cfg p)).isSome
    · simp only [if_pos hEx]
    · simp only [if_neg hEx]
      cases fs p with
      | none => rfl
      | some n =>
        by_cases hM : n < cfg.minFileSize
        · simp only [if_pos hM]
        · simp only [if_neg hM]
          by_cases hD : cfg.dryRun = true
          · simp only [if_pos hD]
          · simp only [if_neg hD]
            cases env.encode p (deriveOutputPath cfg p) quality with
            | fail e => rfl
            | success outSize =>
              by_cases hB : outSize > n
              · simp only [if_pos hB]
                cases env.removeErr (deriveOutputPath cfg p) with
                | none => rfl
                | some e => rfl
              · simp only [if_neg hB]

/-- C2.  For every job a worker begins executing, exactly one
`webpJobResult` is sent on that job's result channel and the channel is
closed immediately after that single send: on every code path through
`pool.execute` — path error, existence gate, minimum-size gate, dry run,
encode failure, output validation, and even the panic unwind of
`mustGetFileSize` — the channel event trace is exactly
`[send result, close]` (the deferred delivery at the top of
`pool.execute` runs on every exit). -/
theorem execute_single_result (env : Env) (cfg : Config) (fs : FS) (input : String)
    (quality : Nat) :
    (execute env cfg fs input quality).events =
      [ChanEvent.send (execute env cfg fs input quality).res, ChanEvent.close] :=
  execute_events_eq env cfg fs input quality

/-- C4.  With `replace = false` and a file already present at the
derived output path, `pool.execute` stops at the existence gate: the
result has `exists = true`, no error, no compression outcome, the
filesystem is untouched, the encoder is never invoked, and — the gate
preceding the size stat, the minimum-size gate and the dry-run gate —
the call does not panic even when the input file is missing, for every
`dryRun` and `minFileSize` configuration. -/
theorem execute_existence_gate (env : Env) (cfg : Config) (fs : FS) (input : String)
    (quality : Nat) (p : String) (sz : Nat)
    (hAbs : env.absPath input = Except.ok p)
    (hRep : cfg.replace = false)
    (hOut : fs (deriveOutputPath cfg p) = some sz) :
    (execute env cfg fs input quality).res.alreadyExists = true ∧
    (execute env cfg fs input quality).res.err = none ∧
    (execute env cfg fs input quality).res.compression = 0 ∧
    (execute env cfg fs input quality).fs = fs ∧
    (execute env cfg fs input quality).encoderInvoked = false ∧
    (execute env cfg fs input quality).panicked = false := by
  unfold execute
  simp only [hAbs]
  have hEx : cfg.replace = false ∧ (fs (deriveOutputPath cfg p)).isSome := by
    simp [hRep, hOut]
  rw [if_pos hEx]
  exact ⟨rfl, rfl, rfl, rfl, rfl, rfl⟩

/-- C6.  A job that passed the existence gate and whose input file's
size is strictly below the configured minimum stops at the minimum-size
gate: no error, no output created, no filesystem mutation, the encoder
never invoked, no panic, and no `alreadyExists` marking. -/
theorem execute_min_size_gate (env : Env) (cfg : Config) (fs : FS) (input : String)
    (quality : Nat) (p : String) (n : Nat)
    (hAbs : env.absPath input = Except.ok p)
    (hGate : cfg.replace = true ∨ fs (deriveOutputPath cfg p) = none)
    (hSize : fs p = some n)
    (hMin : n < cfg.minFileSize) :
    (execute env cfg fs input quality).res.err = none ∧
    (execute env cfg fs input quality).res.alreadyExists = false ∧
    (execute env cfg fs input quality).fs = fs ∧
    (execute env cfg fs input quality).encoderInvoked = false ∧
    (execute env cfg fs input quality).panicked = false := by
  unfold execute
  simp only [hAbs]
  have hEx : ¬ (cfg.replace = false ∧ (fs (deriveOutputPath cfg p)).isSome) := by
    rcases hGate with h | h <;> simp [h]
  rw [if_neg hEx]
  simp only [hSize]
  rw [if_pos hMin]
  exact ⟨rfl, rfl, rfl, rfl, rfl⟩

/-- C7.  With the dry-run flag set, `pool.execute` performs no
filesystem mutation on any path through the pipeline and never invokes
the encoder (the dry-run gate precedes the encode step), while the
result's `outputFile` field is populated with the derived output path
whenever path normalization succeeds. -/
theorem execute_dry_run (env : Env) (cfg : Config) (fs : FS) (input : String)
    (quality : Nat)
    (hDry : cfg.dryRun = true) :
    (execute env cfg fs input quality).fs = fs ∧
    (execute env cfg fs input quality).encoderInvoked = false ∧
    (∀ p, env.absPath input = Except.ok p →
      (execute env cfg fs input quality).res.outputFile = deriveOutputPath cfg p) := by
  unfold execute
  cases hA : env.absPath input with
  | error e =>
    refine ⟨rfl, rfl, ?_⟩
    intro p hp
    simp at hp
  | ok p =>
    have hout : ∀ q, Except.ok (ε := GoErr) p = Except.ok q →
        deriveOutputPath cfg p = deriveOutputPath cfg q := by
      intro q hq
      injection hq with h
      rw [h]
    by_cases hEx : cfg.replace = false ∧ (fs (deriveOutputPath cfg p)).isSome
    · simp only [if_pos hEx]
      exact ⟨trivial, trivial, fun q hq => hout q hq⟩
    · simp only [if_neg hEx]
      cases fs p with
      | none => exact ⟨rfl, rfl, fun q hq => hout q hq⟩
      | some n =>
        by_cases hM : n < cfg.minFileSize
        · simp only [if_pos hM]
          exact ⟨trivial, trivial, fun q hq => hout q hq⟩
        · simp only [if_neg hM, if_pos hDry]
          exact ⟨trivial, trivial, fun q hq => hout q hq⟩

/-- C8.  On every path where the pipeline reaches the encode step and
the encoder succeeds — including the larger-than-input anomaly paths —
the result's `compression` field equals `(1 - outSize/inSize) * 100`,
where `inSize` is the size read from the input file before encoding and
`outSize` is the size of the output file the encoder wrote (what
`mustGetFileSize(r.outputFile)` reads back). -/
theorem execute_compression_formula (env : Env) (cfg : Config) (fs : FS) (input : String)
    (quality : Nat) (p : String) (inSize outSize : Nat)
    (hAbs : env.absPath input = Except.ok p)
    (hGate : cfg.replace = true ∨ fs (deriveOutputPath cfg p) = none)
    (hSize : fs p = some inSize)
    (hMin : ¬ inSize < cfg.minFileSize)
    (hDry : cfg.dryRun = false)
    (hEnc : env.encode p (deriveOutputPath cfg p) quality = EncodeOutcome.success outSize) :
    (execute env cfg fs input quality).res.compression
      = (1 - ((outSize : Rat) / (inSize : Rat))) * 100 ∧
    (execute env cfg fs input quality).encoderInvoked = true := by
  unfold execute
  simp only [hAbs]
  have hEx : ¬ (cfg.replace = false ∧ (fs (deriveOutputPath cfg p)).isSome) := by
    rcases hGate with h | h <;> simp [h]
  rw [if_neg hEx]
  simp only [hSize]
  rw [if_neg hMin, if_neg (show ¬ cfg.dryRun = true by simp [hDry])]
  simp only [hEnc]
  by_cases hB : outSize > inSize
  · rw [if_pos hB]
    cases env.removeErr (deriveOutputPath cfg p) with
    | none => exact ⟨rfl, rfl⟩
    | some e => exact ⟨rfl, rfl⟩
  · rw [if_neg hB]
    exact ⟨rfl, rfl⟩

/-- C3.  When the encoder succeeds but its output is strictly larger
than the input, the job deletes the output file: if `os.Remove`
succeeds the output no longer exists and the result carries no error;
if `os.Remove` fails the result's error is exactly the deletion failure
(and the too-large output file is left in place). -/
theorem execute_larger_output_cleanup (env : Env) (cfg : Config) (fs : FS) (input : String)
    (quality : Nat) (p : String) (inSize outSize : Nat)
    (hAbs : env.absPath input = Except.ok p)
    (hGate : cfg.replace = true ∨ fs (deriveOutputPath cfg p) = none)
    (hSize : fs p = some inSize)
    (hMin : ¬ inSize < cfg.minFileSize)
    (hDry : cfg.dryRun = false)
    (hEnc : env.encode p (deriveOutputPath cfg p) quality = EncodeOutcome.success outSize)
    (hBig : outSize > inSize) :
    (env.removeErr (deriveOutputPath cfg p) = none →
      (execute env cfg fs input quality).fs (deriveOutputPath cfg p) = none ∧
      (execute env cfg fs input quality).res.err = none) ∧
    (∀ e, env.removeErr (deriveOutputPath cfg p) = some e →
      (execute env cfg fs input quality).res.err = some e ∧
      (execute env cfg fs input quality).fs (deriveOutputPath cfg p) = some outSize) := by
  unfold execute
  simp only [hAbs]
  have hEx : ¬ (cfg.replace = false ∧ (fs (deriveOutputPath cfg p)).isSome) := by
    rcases hGate with h | h <;> simp [h]
  rw [if_neg hEx]
  simp only [hSize]
  rw [if_neg hMin, if_neg (show ¬ cfg.dryRun = true by simp [hDry])]
  simp only [hEnc]
  rw [if_pos hBig]
  cases hR : env.removeErr (deriveOutputPath cfg p) with
  | none =>
    constructor
    · intro _
      constructor
      · simp [updateFS]
      · rfl
    · intro e he
      cases he
  | some e0 =>
    constructor
    · intro h
      cases h
    · intro e he
      injection he with h
      subst h
      constructor
      · rfl
      · simp [updateFS]

/-- C10.  When the encoder succeeds, the output is strictly larger than
the (non-empty) input, and the deletion succeeds, the delivered result
has no error and no `exists` marking, yet its `compression` field —
computed before the deletion — is strictly negative: the only trace of
the discarded-anomaly outcome a caller can observe. -/
theorem execute_anomaly_silent_success (env : Env) (cfg : Config) (fs : FS) (input : String)
    (quality : Nat) (p : String) (inSize outSize : Nat)
    (hAbs : env.absPath input = Except.ok p)
    (hGate : cfg.replace = true ∨ fs (deriveOutputPath cfg p) = none)
    (hSize : fs p = some inSize)
    (hMin : ¬ inSize < cfg.minFileSize)
    (hDry : cfg.dryRun = false)
    (hEnc : env.encode p (deriveOutputPath cfg p) quality = EncodeOutcome.success outSize)
    (hBig : inSize < outSize)
    (hRem : env.removeErr (deriveOutputPath cfg p) = none)
    (hPos : 0 < inSize) :
    (execute env cfg fs input quality).res.err = none ∧
    (execute env cfg fs input quality).res.alreadyExists = false ∧
    (execute env cfg fs input quality).res.compression < 0 := by
  have hcomp : (execute env cfg fs input quality).res.compression
      = (1 - ((outSize : Rat) / (inSize : Rat))) * 100 :=
    (execute_compression_formula env cfg fs input quality p inSize outSize
      hAbs hGate hSize hMin hDry hEnc).1
  have hneg : (1 - ((outSize : Rat) / (inSize : Rat))) * 100 < 0 := by
    have h0 : (0 : Rat) < (inSize : Rat) := by exact_mod_cast hPos
    have h1 : (1 : Rat) < (outSize : Rat) / (inSize : Rat) :=
      (one_lt_div h0).mpr (by exact_mod_cast hBig)
    have h2 : (1 - ((outSize : Rat) / (inSize : Rat))) < 0 := by linarith
    have h100 : (0 : Rat) < 100 := by norm_num
    exact mul_neg_of_neg_of_pos h2 h100
  refine ⟨?_, ?_, ?_⟩
  · unfold execute
    simp only [hAbs]
    have hEx : ¬ (cfg.replace = false ∧ (fs (deriveOutputPath cfg p)).isSome) := by
      rcases hGate with h | h <;> simp [h]
    rw [if_neg hEx]
    simp only [hSize]
    rw [if_neg hMin, if_neg (show ¬ cfg.dryRun = true by simp [hDry])]
    simp only [hEnc]
    rw [if_pos hBig]
    simp only [hRem]
  · unfold execute
    simp only [hAbs]
    have hEx : ¬ (cfg.replace = false ∧ (fs (deriveOutputPath cfg p)).isSome) := by
      rcases hGate with h | h <;> simp [h]
    rw [if_neg hEx]
    simp only [hSize]
    rw [if_neg hMin, if_neg (show ¬ cfg.dryRun = true by simp [hDry])]
    simp only [hEnc]
    rw [if_pos hBig]
    simp only [hRem]
  · rw [hcomp]
    exact hneg

/-- One-step unfolding of `extRevAux` on a cons cell. -/
theorem extRevAux_cons (c : Char) (rest acc : List Char) :
    GoFilepath.extRevAux (c :: rest) acc =
      if c = '/' then [] else if c = '.' then c :: acc
      else GoFilepath.extRevAux rest (c :: acc) := rfl

/-- Scanning for the extension stops at the first separator anyway, so
restricting the reversed input to its prefix of non-separator characters
does not change the result. -/
theorem extRevAux_takeWhile (l : List Char) (acc : List Char) :
    GoFilepath.extRevAux (l.takeWhile (fun c => ¬ c = '/')) acc
      = GoFilepath.extRevAux l acc := by
  induction l generalizing acc with
  | nil => rfl
  | cons c t ih =>
    rw [List.takeWhile_cons]
    by_cases hc : c = '/'
    · rw [if_neg (by simp [hc]), extRevAux_cons, if_pos hc]
      rfl
    · rw [if_pos (by simp [hc]), extRevAux_cons, extRevAux_cons, if_neg hc, if_neg hc]
      by_cases hd : c = '.'
      · rw [if_pos hd, if_pos hd]
      · rw [if_neg hd, if_neg hd]
        exact ih (c :: acc)

/-- For a path with no trailing separator (or the root path), the
extension of its base name is the extension of the path itself. -/
theorem ext_base (p : String) (hne : p.data ≠ [])
    (h : p = "/" ∨ p.data.getLast? ≠ some '/') :
    GoFilepath.ext (GoFilepath.base p) = GoFilepath.ext p := by
  rcases h with h | h
  · subst h
    rfl
  · have hrev : p.data.reverse.head? ≠ some '/' := by
      rw [← List.getLast?_eq_head?_reverse]
      exact h
    cases hr : p.data.reverse with
    | nil =>
      exact absurd (by simpa using congrArg List.reverse hr) hne
    | cons c t =>
      have hc : ¬ c = '/' := by
        rw [hr] at hrev
        simpa using hrev
      have hdrop : (c :: t).dropWhile (fun x => x = '/') = c :: t := by
        simp [List.dropWhile_cons, hc]
      have htake : (c :: t).takeWhile (fun x => ¬ x = '/') =
          c :: t.takeWhile (fun x => ¬ x = '/') := by
        simp [List.takeWhile_cons, hc]
      have hbase : GoFilepath.base p
          = String.mk ((c :: t.takeWhile (fun x => ¬ x = '/')).reverse) := by
        unfold GoFilepath.base
        rw [if_neg hne, hr]
        simp only [hdrop, htake]
        rw [if_neg (by simp : ¬ (c :: t.takeWhile (fun x => ¬ x = '/')) = [])]
      rw [hbase]
      unfold GoFilepath.ext
      show String.mk
          (GoFilepath.extRevAux ((c :: t.takeWhile (fun x => ¬ x = '/')).reverse).reverse [])
        = String.mk (GoFilepath.extRevAux p.data.reverse [])
      rw [List.reverse_reverse, ← htake, extRevAux_takeWhile, hr]

/-- C5.  For every input path as `filepath.Abs` yields it — absolute,
and (being cleaned) with no trailing separator unless it is the root —
the derived output path is exactly the spec's formula: the directory
joined with `prependToName + base name without its extension +
appendToName + ".webp"`.  Determinism, idempotence across repeated
calls and freedom from filesystem effects are intrinsic to the
embedding: `deriveOutputPath` is a pure function of the configuration
and the path, and `execute` threads its filesystem state past the
derivation unchanged. -/
theorem deriveOutputPath_matches_spec (cfg : Config) (p : String)
    (hAbs : p.data.head? = some '/')
    (hClean : p = "/" ∨ p.data.getLast? ≠ some '/') :
    deriveOutputPath cfg p = deriveOutputPathSpec cfg p := by
  have hne : p.data ≠ [] := by
    intro hnil
    rw [hnil] at hAbs
    cases hAbs
  unfold deriveOutputPath deriveOutputPathSpec baseNameWithoutExtension
  rw [ext_base p hne hClean]

/-- C5 witness: a concrete decorated derivation. -/
theorem deriveOutputPath_matches_spec_witness :
    deriveOutputPath cfgDecor "/pics/cat.jpg" = deriveOutputPathSpec cfgDecor "/pics/cat.jpg" :=
  deriveOutputPath_matches_spec cfgDecor "/pics/cat.jpg" (by rfl) (Or.inr (by decide))

/-- Shared lemma: when the sizes the pipeline reads are available —
in particular whenever the input file exists at its resolved path —
`pool.execute` does not panic. -/
theorem execute_no_panic_of_stat (env : Env) (cfg : Config) (fs : FS) (input : String)
    (quality : Nat)
    (hStat : ∀ p, env.absPath input = Except.ok p → (fs p).isSome = true) :
    (execute env cfg fs input quality).panicked = false := by
  unfold execute
  cases hA : env.absPath input with
  | error e => rfl
  | ok p =>
    by_cases hEx : cfg.replace = false ∧ (fs (deriveOutputPath cfg p)).isSome
    · simp only [if_pos hEx]
    · simp only [if_neg hEx]
      cases hS : fs p with
      | none =>
        have h2 := hStat p hA
        rw [hS] at h2
        simp at h2
      | some n =>
        by_cases hM : n < cfg.minFileSize
        · simp only [if_pos hM]
        · simp only [if_neg hM]
          by_cases hD : cfg.dryRun = true
          · simp only [if_pos hD]
          · simp only [if_neg hD]
            cases env.encode p (deriveOutputPath cfg p) quality with
            | fail e => rfl
            | success outSize =>
              by_cases hB : outSize > n
              · simp only [if_pos hB]
                cases env.removeErr (deriveOutputPath cfg p) with
                | none => rfl
                | some e => rfl
              · simp only [if_neg hB]

/-- C1 counterexample.  The claim says every failure in the pipeline —
including a failure to read the input file's size — is contained in the
job's result and never crashes the process.  But `mustGetFileSize`
panics when `os.Stat` fails: with the input file absent (deleted
between discovery and execution) and no pre-existing output, the job
passes the existence gate and then panics reading the input size,
crashing the whole process (a panic in a goroutine without `recover`),
with the result's `err` field still `nil`. -/
theorem execute_stat_panic_cex :
    (execute envOk cfgDefault fsNone "/pics/cat.jpg" 80).panicked = true ∧
    (execute envOk cfgDefault fsNone "/pics/cat.jpg" 80).res.err = none := by
  constructor <;> rfl

/-- C1 (amended).  Failures from path resolution, encoding and deletion
are contained in the job's `webpJobResult` and the single result is
still delivered on the job's own channel; but this holds only when the
stats the pipeline performs succeed (input file present at its resolved
path): a stat failure panics in `mustGetFileSize` and crashes the whole
process, the one per-job failure the pipeline does not contain.  Job
independence is structural: `execute` is a function of the oracles, the
configuration, the filesystem and the job's own fields alone. -/
theorem execute_errors_contained_unless_stat_fails (env : Env) (cfg : Config) (fs : FS)
    (input : String) (quality : Nat)
    (hStat : ∀ p, env.absPath input = Except.ok p → (fs p).isSome = true) :
    (execute env cfg fs input quality).panicked = false ∧
    (execute env cfg fs input quality).events =
      [ChanEvent.send (execute env cfg fs input quality).res, ChanEvent.close] :=
  ⟨execute_no_panic_of_stat env cfg fs input quality hStat,
    execute_events_eq env cfg fs input quality⟩

/-- C1 (amended) witness: a job whose input file exists. -/
theorem execute_errors_contained_witness :
    (execute envOk cfgDefault fsCat "/pics/cat.jpg" 80).panicked = false ∧
    (execute envOk cfgDefault fsCat "/pics/cat.jpg" 80).events =
      [ChanEvent.send (execute envOk cfgDefault fsCat "/pics/cat.jpg" 80).res,
        ChanEvent.close] :=
  execute_errors_contained_unless_stat_fails envOk cfgDefault fsCat "/pics/cat.jpg" 80
    (by
      intro p hp
      injection hp with h
      subst h
      rfl)

/-! Lemmas for the pool shutdown protocol. -/

theorem liveCount_append (l1 l2 : List WorkerState) :
    liveCount (l1 ++ l2) = liveCount l1 + liveCount l2 := by
  simp [liveCount, List.filter_append]

theorem liveCount_cons (w : WorkerState) (l : List WorkerState) :
    liveCount (w :: l) = (if w = WorkerState.exited then 0 else 1) + liveCount l := by
  by_cases h : w = WorkerState.exited
  · simp [liveCount, List.filter_cons, h]
  · simp [liveCount, List.filter_cons, h]
    omega

theorem currentJobs_append (l1 l2 : List WorkerState) :
    currentJobs (l1 ++ l2) = currentJobs l1 + currentJobs l2 := by
  simp only [currentJobs, List.filterMap_append]
  rfl

theorem currentJobs_waiting_cons (l : List WorkerState) :
    currentJobs (WorkerState.waiting :: l) = currentJobs l := rfl

theorem currentJobs_exited_cons (l : List WorkerState) :
    currentJobs (WorkerState.exited :: l) = currentJobs l := rfl

theorem currentJobs_executing_cons (j : Nat) (l : List WorkerState) :
    currentJobs (WorkerState.executing j :: l) = j ::ₘ currentJobs l := rfl

theorem liveCount_replicate_waiting (n : Nat) :
    liveCount (List.replicate n WorkerState.waiting) = n := by
  induction n with
  | zero => rfl
  | succ k ih =>
    simp [List.replicate_succ, liveCount_cons, ih]
    omega

theorem currentJobs_replicate_waiting (n : Nat) :
    currentJobs (List.replicate n WorkerState.waiting) = 0 := by
  induction n with
  | zero => rfl
  | succ k ih => rw [List.replicate_succ, currentJobs_waiting_cons, ih]

/-- The invariant holds in `newPool`'s initial state. -/
theorem poolInv_init (n : Nat) : PoolInv (initPool n) where
  wg := (liveCount_replicate_waiting n).symm
  stopAll := fun h => by simp [initPool] at h
  acct := by
    show ((([] : List Nat)) : Multiset Nat)
      = (([] : List Nat) : Multiset Nat) + currentJobs (List.replicate n WorkerState.waiting)
    rw [currentJobs_replicate_waiting]
    rfl
  nodup := List.nodup_nil

/-- Every transition of the pool protocol preserves the invariant. -/
theorem poolInv_step {s t : PoolState} (inv : PoolInv s) (st : PoolStep s t) : PoolInv t := by
  cases st with
  | dispatch j pre post hw hcl hnotin =>
    refine ⟨?_, ?_, ?_, ?_⟩
    · have hwg := inv.wg
      rw [hw, liveCount_append, liveCount_cons] at hwg
      show s.wgCount = liveCount (pre ++ WorkerState.executing j :: post)
      rw [liveCount_append, liveCount_cons]
      simp at hwg ⊢
      omega
    · intro h
      have h0 := inv.stopAll h
      rw [hw, liveCount_append, liveCount_cons] at h0
      simp at h0
    · have ha := inv.acct
      rw [hw, currentJobs_append, currentJobs_waiting_cons] at ha
      show ((j :: s.started : List Nat) : Multiset Nat)
        = (s.delivered : Multiset Nat) + currentJobs (pre ++ WorkerState.executing j :: post)
      rw [currentJobs_append, currentJobs_executing_cons]
      rw [show ((j :: s.started : List Nat) : Multiset Nat)
        = j ::ₘ (s.started : Multiset Nat) from rfl]
      rw [ha]
      simp only [← Multiset.singleton_add]
      abel
    · exact List.nodup_cons.mpr ⟨hnotin, inv.nodup⟩
  | finish j pre post hw =>
    refine ⟨?_, ?_, ?_, ?_⟩
    · have hwg := inv.wg
      rw [hw, liveCount_append, liveCount_cons] at hwg
      show s.wgCount = liveCount (pre ++ WorkerState.waiting :: post)
      rw [liveCount_append, liveCount_cons]
      simp at hwg ⊢
      omega
    · intro h
      have h0 := inv.stopAll h
      rw [hw, liveCount_append, liveCount_cons] at h0
      simp at h0
    · have ha := inv.acct
      rw [hw, currentJobs_append, currentJobs_executing_cons] at ha
      show (s.started : Multiset Nat)
        = ((j :: s.delivered : List Nat) : Multiset Nat) + currentJobs (pre ++ WorkerState.waiting :: post)
      rw [currentJobs_append, currentJobs_waiting_cons]
      rw [show ((j :: s.delivered : List Nat) : Multiset Nat)
        = j ::ₘ (s.delivered : Multiset Nat) from rfl]
      rw [ha]
      simp only [← Multiset.singleton_add]
      abel
    · exact inv.nodup
  | exitClosed pre post hw hcl =>
    refine ⟨?_, ?_, ?_, ?_⟩
    · have hwg := inv.wg
      rw [hw, liveCount_append, liveCount_cons] at hwg
      show s.wgCount - 1 = liveCount (pre ++ WorkerState.exited :: post)
      rw [liveCount_append, liveCount_cons]
      simp at hwg ⊢
      omega
    · intro h
      have h0 := inv.stopAll h
      rw [hw, liveCount_append, liveCount_cons] at h0
      simp at h0
    · have ha := inv.acct
      rw [hw, currentJobs_append, currentJobs_waiting_cons] at ha
      show (s.started : Multiset Nat)
        = (s.delivered : Multiset Nat) + currentJobs (pre ++ WorkerState.exited :: post)
      rw [currentJobs_append, currentJobs_exited_cons]
      exact ha
    · exact inv.nodup
  | exitDone pre post hw hdn =>
    refine ⟨?_, ?_, ?_, ?_⟩
    · have hwg := inv.wg
      rw [hw, liveCount_append, liveCount_cons] at hwg
      show s.wgCount - 1 = liveCount (pre ++ WorkerState.exited :: post)
      rw [liveCount_append, liveCount_cons]
      simp at hwg ⊢
      omega
    · intro h
      have h0 := inv.stopAll h
      rw [hw, liveCount_append, liveCount_cons] at h0
      simp at h0
    · have ha := inv.acct
      rw [hw, currentJobs_append, currentJobs_waiting_cons] at ha
      show (s.started : Multiset Nat)
        = (s.delivered : Multiset Nat) + currentJobs (pre ++ WorkerState.exited :: post)
      rw [currentJobs_append, currentJobs_exited_cons]
      exact ha
    · exact inv.nodup
  | closeJobs =>
    exact ⟨inv.wg, inv.stopAll, inv.acct, inv.nodup⟩
  | cancel =>
    exact ⟨inv.wg, inv.stopAll, inv.acct, inv.nodup⟩
  | stopReturn hdn hz =>
    refine ⟨inv.wg, ?_, inv.acct, inv.nodup⟩
    intro _
    rw [← inv.wg]
    exact hz

/-- The invariant holds in every reachable pool state. -/
theorem poolInv_reachable {n : Nat} {s : PoolState} (h : Reachable n s) : PoolInv s := by
  induction h with
  | init => exact poolInv_init n
  | step _ hst ih => exact poolInv_step ih hst

theorem workers_exited_of_liveCount_zero {ws : List WorkerState}
    (h : liveCount ws = 0) : ∀ w ∈ ws, w = WorkerState.exited := by
  intro w hw
  by_contra hne
  have hmem : w ∈ ws.filter (fun w => w ≠ WorkerState.exited) := by
    simp [List.mem_filter, hw, hne]
  have hlen : (ws.filter (fun w => w ≠ WorkerState.exited)).length = 0 := h
  rw [List.length_eq_zero] at hlen
  rw [hlen] at hmem
  cases hmem

theorem currentJobs_of_all_exited {ws : List WorkerState}
    (h : ∀ w ∈ ws, w = WorkerState.exited) : currentJobs ws = 0 := by
  induction ws with
  | nil => rfl
  | cons w l ih =>
    have hw : w = WorkerState.exited := h w (by simp)
    subst hw
    rw [currentJobs_exited_cons]
    exact ih (fun x hx => h x (by simp [hx]))

/-- C9.  `pool.stop` fires the cancellation and blocks on the wait
group, so in every reachable state in which `stop` has returned, every
worker has exited; moreover the multiset of jobs whose pipeline had
started equals the multiset of jobs whose single result was delivered,
with no duplicates — stopping never loses or duplicates the result of a
job that had started, because a worker always finishes (and delivers)
its in-flight job before re-entering the select and observing the
cancellation. -/
theorem stop_returned_shutdown (n : Nat) (s : PoolState)
    (hreach : Reachable n s) (hstop : s.stopReturned = true) :
    (∀ w ∈ s.workers, w = WorkerState.exited) ∧
    ((s.started : Multiset Nat) = (s.delivered : Multiset Nat)) ∧
    s.delivered.Nodup := by
  have inv := poolInv_reachable hreach
  have hzero := inv.stopAll hstop
  have hall := workers_exited_of_liveCount_zero hzero
  have hcur := currentJobs_of_all_exited hall
  have hacct : (s.started : Multiset Nat) = (s.delivered : Multiset Nat) := by
    rw [inv.acct, hcur, add_zero]
  refine ⟨hall, hacct, ?_⟩
  have hperm : s.started.Perm s.delivered := Multiset.coe_eq_coe.mp hacct
  exact hperm.nodup_iff.mp inv.nodup

/-- C9 witness: a one-worker pool that ran one job to delivery, was
cancelled and stopped. -/
theorem stop_returned_shutdown_witness :
    (∀ w ∈ poolDone.workers, w = WorkerState.exited) ∧
    ((poolDone.started : Multiset Nat) = (poolDone.delivered : Multiset Nat)) ∧
    poolDone.delivered.Nodup := by
  have r0 : Reachable 1 (initPool 1) := Reachable.init
  have r1 := Reachable.step r0
    (PoolStep.dispatch (initPool 1) 0 [] [] rfl rfl (by simp [initPool]))
  have r2 := Reachable.step r1 (PoolStep.finish _ 0 [] [] rfl)
  have r3 := Reachable.step r2 (PoolStep.cancel _)
  have r4 := Reachable.step r3 (PoolStep.exitDone _ [] [] rfl rfl)
  have r5 := Reachable.step r4 (PoolStep.stopReturn _ rfl rfl)
  exact stop_returned_shutdown 1 poolDone r5 rfl

/-! Witnesses for the pipeline theorems, at concrete inputs. -/

/-- C4 witness: the output already exists and `replace` is off. -/
theorem execute_existence_gate_witness :
    (execute envOk cfgDefault fsCatBoth "/pics/cat.jpg" 80).res.alreadyExists = true ∧
    (execute envOk cfgDefault fsCatBoth "/pics/cat.jpg" 80).res.err = none ∧
    (execute envOk cfgDefault fsCatBoth "/pics/cat.jpg" 80).res.compression = 0 ∧
    (execute envOk cfgDefault fsCatBoth "/pics/cat.jpg" 80).fs = fsCatBoth ∧
    (execute envOk cfgDefault fsCatBoth "/pics/cat.jpg" 80).encoderInvoked = false ∧
    (execute envOk cfgDefault fsCatBoth "/pics/cat.jpg" 80).panicked = false :=
  execute_existence_gate envOk cfgDefault fsCatBoth "/pics/cat.jpg" 80 "/pics/cat.jpg" 4096
    rfl rfl rfl

/-- C6 witness: a 512-byte input against the 10KB minimum. -/
theorem execute_min_size_gate_witness :
    (execute envOk cfgDefault fsIcon "/pics/icon.png" 80).res.err = none ∧
    (execute envOk cfgDefault fsIcon "/pics/icon.png" 80).res.alreadyExists = false ∧
    (execute envOk cfgDefault fsIcon "/pics/icon.png" 80).fs = fsIcon ∧
    (execute envOk cfgDefault fsIcon "/pics/icon.png" 80).encoderInvoked = false ∧
    (execute envOk cfgDefault fsIcon "/pics/icon.png" 80).panicked = false :=
  execute_min_size_gate envOk cfgDefault fsIcon "/pics/icon.png" 80 "/pics/icon.png" 512
    rfl (Or.inr rfl) rfl (by decide)

/-- C7 witness: a dry run over an existing input. -/
theorem execute_dry_run_witness :
    (execute envOk cfgDry fsCat "/pics/cat.jpg" 80).fs = fsCat ∧
    (execute envOk cfgDry fsCat "/pics/cat.jpg" 80).encoderInvoked = false ∧
    (∀ p, envOk.absPath "/pics/cat.jpg" = Except.ok p →
      (execute envOk cfgDry fsCat "/pics/cat.jpg" 80).res.outputFile
        = deriveOutputPath cfgDry p) :=
  execute_dry_run envOk cfgDry fsCat "/pics/cat.jpg" 80 rfl

/-- C8 witness: a 50000-byte input encoded to 20000 bytes. -/
theorem execute_compression_formula_witness :
    (execute envSmallOut cfgDefault fsCat "/pics/cat.jpg" 80).res.compression
      = (1 - ((20000 : Rat) / (50000 : Rat))) * 100 ∧
    (execute envSmallOut cfgDefault fsCat "/pics/cat.jpg" 80).encoderInvoked = true :=
  execute_compression_formula envSmallOut cfgDefault fsCat "/pics/cat.jpg" 80
    "/pics/cat.jpg" 50000 20000 rfl (Or.inr rfl) rfl (by decide) rfl rfl

/-- C3 witness: a 50000-byte input encoded to a larger 60000-byte
output, with deletion succeeding. -/
theorem execute_larger_output_cleanup_witness :
    (envOk.removeErr (deriveOutputPath cfgDefault "/pics/cat.jpg") = none →
      (execute envOk cfgDefault fsCat "/pics/cat.jpg" 80).fs
        (deriveOutputPath cfgDefault "/pics/cat.jpg") = none ∧
      (execute envOk cfgDefault fsCat "/pics/cat.jpg" 80).res.err = none) ∧
    (∀ e, envOk.removeErr (deriveOutputPath cfgDefault "/pics/cat.jpg") = some e →
      (execute envOk cfgDefault fsCat "/pics/cat.jpg" 80).res.err = some e ∧
      (execute envOk cfgDefault fsCat "/pics/cat.jpg" 80).fs
        (deriveOutputPath cfgDefault "/pics/cat.jpg") = some 60000) :=
  execute_larger_output_cleanup envOk cfgDefault fsCat "/pics/cat.jpg" 80
    "/pics/cat.jpg" 50000 60000 rfl (Or.inr rfl) rfl (by decide) rfl rfl (by decide)

/-- C10 witness: same anomalous run, observing the silent-success shape. -/
theorem execute_anomaly_silent_success_witness :
    (execute envOk cfgDefault fsCat "/pics/cat.jpg" 80).res.err = none ∧
    (execute envOk cfgDefault fsCat "/pics/cat.jpg" 80).res.alreadyExists = false ∧
    (execute envOk cfgDefault fsCat "/pics/cat.jpg" 80).res.compression < 0 :=
  execute_anomaly_silent_success envOk cfgDefault fsCat "/pics/cat.jpg" 80
    "/pics/cat.jpg" 50000 60000 rfl (Or.inr rfl) rfl (by decide) rfl rfl (by decide)
    rfl (by decide)

end Gowebp
